import Mathlib

/-
Verification of the local memory-store layer and its derived views.

Embedding conventions:
* An instant is a `Nat`: minutes since 1970-01-01T00:00Z.  The source keeps
  `createdAt` as an ISO-8601 UTC string produced by `toISOString()`; those
  strings are order-isomorphic to instants, the date prefix before the
  letter T corresponds to the UTC day number `t / 1440`, and string
  comparison of date prefixes corresponds to day-number comparison.
* The device timezone is a fixed offset `tz : Int` in minutes that is added
  to UTC to obtain local wall time (the negation of the JavaScript
  `getTimezoneOffset`).  Functions of the source that read local time
  (`getHours`, `toDateString`, `toLocaleDateString`) take `tz` explicitly.
* The SQLite table `memories` is a list of rows in rowid (insertion) order
  together with the AUTOINCREMENT counter; `ORDER BY x DESC` is a stable
  descending insertion sort over the stored order.
* JavaScript string operations (`toLowerCase`, `includes`, `split(/\s+/)`,
  `trim`) are embedded below; lowercasing is the ASCII case map, which
  agrees with the source on every string considered here.
-/

/-! ### String primitives -/

/-- Does `ned` occur as a leading segment of `hay`?  (list-of-chars level) -/
def startsWithSeq : List Char → List Char → Bool
  | _, [] => true
  | [], _ :: _ => false
  | c :: t, n :: m => c == n && startsWithSeq t m

/-- Does `ned` occur contiguously somewhere inside `hay`?  Embeds the
JavaScript `hay.includes(ned)` on the character-list level. -/
def containsSeq : List Char → List Char → Bool
  | _, [] => true
  | [], _ :: _ => false
  | c :: t, n :: m => startsWithSeq (c :: t) (n :: m) || containsSeq t (n :: m)

/-- JavaScript `hay.includes(ned)`. -/
def strIncludes (hay ned : String) : Bool :=
  containsSeq hay.data ned.data

/-- JavaScript `s.toLowerCase()` (ASCII case map). -/
def toLowerStr (s : String) : String :=
  String.mk (s.data.map Char.toLower)

/-- JavaScript `s.trim()`: strip whitespace from both ends. -/
def jsTrim (s : String) : String :=
  String.mk (((s.data.dropWhile Char.isWhitespace).reverse.dropWhile
    Char.isWhitespace).reverse)

/-- Worker for `split(/\s+/)`: produces the chunks delimited by maximal
whitespace runs; the flag records whether the previous character was
whitespace (i.e. whether we are inside a separator run). -/
def tokensWsAux (prevWs : Bool) : List Char → List (List Char)
  | [] => [[]]
  | c :: cs =>
    if c.isWhitespace then
      if prevWs then tokensWsAux true cs
      else [] :: tokensWsAux true cs
    else
      match tokensWsAux false cs with
      | t :: ts => (c :: t) :: ts
      | [] => [c] :: []

/-- JavaScript `s.split(/\s+/)`: empty string maps to a single empty chunk,
leading and trailing whitespace produce empty chunks at the ends, interior
runs are collapsed. -/
def splitWsJS (s : String) : List String :=
  (tokensWsAux false s.data).map String.mk

/-! ### Time primitives -/

/-- The UTC day number of an instant: the date prefix of `toISOString()`. -/
def utcDay (t : Nat) : Int :=
  Int.fdiv (t : Int) 1440

/-- The local calendar-day number of an instant at timezone offset `tz`:
what `toDateString()` renders on the device. -/
def localCalendarDay (t : Int) (tz : Int) : Int :=
  Int.fdiv (t + tz) 1440

/-- The local hour of an instant: JavaScript `new Date(t).getHours()`. -/
def localHour (t : Nat) (tz : Int) : Int :=
  Int.fdiv (Int.emod ((t : Int) + tz) 1440) 60

/-- Gregorian civil date (year, month, day) of a day number counted from
1970-01-01 (standard days-to-civil conversion). -/
def civilFromDays (z0 : Int) : Int × Nat × Nat :=
  let z := z0 + 719468
  let era := Int.fdiv z 146097
  let doe := (z - era * 146097).toNat
  let yoe := (doe - doe / 1460 + doe / 36524 - doe / 146096) / 365
  let doy := doe - (365 * yoe + yoe / 4 - yoe / 100)
  let mp := (5 * doy + 2) / 153
  let dom := doy - (153 * mp + 2) / 5 + 1
  let mon := if mp < 10 then mp + 3 else mp - 9
  let yr := (yoe : Int) + era * 400 + (if mon ≤ 2 then 1 else 0)
  (yr, mon, dom)

def weekdayNames : List String :=
  ["Sunday", "Monday", "Tuesday", "Wednesday", "Thursday", "Friday", "Saturday"]

def monthShortNames : List String :=
  ["Jan", "Feb", "Mar", "Apr", "May", "Jun", "Jul", "Aug", "Sep", "Oct", "Nov", "Dec"]

/-- `toLocaleDateString("en-US", {weekday:"long", month:"short", day:"numeric"})`
applied to the civil date of local day number `d`. -/
def renderWeekdayMonthDay (d : Int) : String :=
  let wd := ((d + 4).emod 7).toNat
  let c := civilFromDays d
  (weekdayNames.getD wd "") ++ ", " ++ (monthShortNames.getD (c.2.1 - 1) "") ++ " "
    ++ toString c.2.2

/-! ### Data model (src lib/database.ts) -/

inductive ContentType where
  | text | voice | photo | link | screenshot
deriving DecidableEq, Repr

/-- A row of the `memories` table. -/
structure Memory where
  id : Nat
  content : String
  contentType : ContentType
  createdAt : Nat
  latitude : Option Int := none
  longitude : Option Int := none
  locationName : Option String := none
  audioUri : Option String := none
  imageUri : Option String := none
  linkUrl : Option String := none
  linkTitle : Option String := none
  linkPreview : Option String := none
  focusTags : Option String := none
  viewCount : Nat := 0
  lastViewedAt : Option Nat := none
deriving DecidableEq, Repr

/-- The `Omit<Memory, "id" | "viewCount" | "lastViewedAt">` input of addMemory. -/
structure NewMemory where
  content : String
  contentType : ContentType
  createdAt : Nat
  latitude : Option Int := none
  longitude : Option Int := none
  locationName : Option String := none
  audioUri : Option String := none
  imageUri : Option String := none
  linkUrl : Option String := none
  linkTitle : Option String := none
  linkPreview : Option String := none
  focusTags : Option String := none
deriving DecidableEq, Repr

/-- A row of the `focus_goals` table. -/
structure FocusGoal where
  id : Nat
  name : String
  isActive : Bool
  createdAt : Nat
deriving DecidableEq, Repr

/-- A `Partial<Memory>` for updateMemory; the source skips the key `id`, so
it is not part of this structure.  `some v` means the key is present and
sets the column to `v` (nullable columns take an inner Option). -/
structure MemoryUpdate where
  content : Option String := none
  contentType : Option ContentType := none
  createdAt : Option Nat := none
  latitude : Option (Option Int) := none
  longitude : Option (Option Int) := none
  locationName : Option (Option String) := none
  audioUri : Option (Option String) := none
  imageUri : Option (Option String) := none
  linkUrl : Option (Option String) := none
  linkTitle : Option (Option String) := none
  linkPreview : Option (Option String) := none
  focusTags : Option (Option String) := none
  viewCount : Option Nat := none
  lastViewedAt : Option (Option Nat) := none
deriving DecidableEq, Repr

/-- Does the `Partial<Memory>` carry no column at all (`fields.length == 0`)? -/
def MemoryUpdate.isEmpty (u : MemoryUpdate) : Bool :=
  u.content.isNone && u.contentType.isNone && u.createdAt.isNone &&
  u.latitude.isNone && u.longitude.isNone && u.locationName.isNone &&
  u.audioUri.isNone && u.imageUri.isNone && u.linkUrl.isNone &&
  u.linkTitle.isNone && u.linkPreview.isNone && u.focusTags.isNone &&
  u.viewCount.isNone && u.lastViewedAt.isNone

/-- The SQLite database: table contents in rowid order plus the
AUTOINCREMENT counters. -/
structure Db where
  memories : List Memory := []
  nextMemoryId : Nat := 1
  goals : List FocusGoal := []
  nextGoalId : Nat := 1
deriving DecidableEq, Repr

def emptyDb : Db := {}

/-! ### Stable descending insertion sort (embedding of ORDER BY ... DESC) -/

/-- Insert `x` before the first element whose key is strictly smaller;
equal keys keep the existing element first (stability). -/
def insKeyDesc (key : α → Int) (x : α) : List α → List α
  | [] => [x]
  | y :: ys => if key y < key x then x :: y :: ys else y :: insKeyDesc key x ys

/-- Stable insertion sort, descending by `key`; models the order produced
by `ORDER BY key DESC` over rows stored in rowid order. -/
def sortKeyDesc (key : α → Int) : List α → List α
  | [] => []
  | x :: xs => insKeyDesc key x (sortKeyDesc key xs)

/-! ### Record Store operations (lib/database.ts) -/

/-- `addMemory`: INSERT the row (viewCount takes its DEFAULT 0) and return
`lastInsertRowId`.  The source performs no validation of the payload. -/
def addMemory (m : NewMemory) (db : Db) : Nat × Db :=
  let row : Memory :=
    { id := db.nextMemoryId, content := m.content, contentType := m.contentType,
      createdAt := m.createdAt, latitude := m.latitude, longitude := m.longitude,
      locationName := m.locationName, audioUri := m.audioUri, imageUri := m.imageUri,
      linkUrl := m.linkUrl, linkTitle := m.linkTitle, linkPreview := m.linkPreview,
      focusTags := m.focusTags, viewCount := 0, lastViewedAt := none }
  (db.nextMemoryId,
   { db with memories := db.memories ++ [row], nextMemoryId := db.nextMemoryId + 1 })

/-- `getAllMemories`: SELECT * ORDER BY createdAt DESC. -/
def getAllMemories (db : Db) : List Memory :=
  sortKeyDesc (fun m => (m.createdAt : Int)) db.memories

/-- `getRecentMemories(limit)`: ORDER BY createdAt DESC LIMIT limit. -/
def getRecentMemories (limit : Nat) (db : Db) : List Memory :=
  (sortKeyDesc (fun m => (m.createdAt : Int)) db.memories).take limit

/-- Merge the present columns of a `Partial<Memory>` into a row. -/
def applyUpdate (u : MemoryUpdate) (m : Memory) : Memory :=
  { m with
    content := u.content.getD m.content,
    contentType := u.contentType.getD m.contentType,
    createdAt := u.createdAt.getD m.createdAt,
    latitude := u.latitude.getD m.latitude,
    longitude := u.longitude.getD m.longitude,
    locationName := u.locationName.getD m.locationName,
    audioUri := u.audioUri.getD m.audioUri,
    imageUri := u.imageUri.getD m.imageUri,
    linkUrl := u.linkUrl.getD m.linkUrl,
    linkTitle := u.linkTitle.getD m.linkTitle,
    linkPreview := u.linkPreview.getD m.linkPreview,
    focusTags := u.focusTags.getD m.focusTags,
    viewCount := u.viewCount.getD m.viewCount,
    lastViewedAt := u.lastViewedAt.getD m.lastViewedAt }

/-- `updateMemory(id, updates)`: when no column is present no statement is
run; otherwise UPDATE ... WHERE id = ?, which touches the matching rows and
nothing else.  The source never raises on a missing id. -/
def updateMemory (id : Nat) (u : MemoryUpdate) (db : Db) : Db :=
  if u.isEmpty then db
  else { db with memories := db.memories.map (fun m => if m.id = id then applyUpdate u m else m) }

/-- `deleteMemory(id)`: DELETE FROM memories WHERE id = ?. -/
def deleteMemory (id : Nat) (db : Db) : Db :=
  { db with memories := db.memories.filter (fun m => !(m.id == id)) }

/-- `getFocusGoals`: SELECT * FROM focus_goals ORDER BY createdAt DESC. -/
def getFocusGoals (db : Db) : List FocusGoal :=
  sortKeyDesc (fun g => (g.createdAt : Int)) db.goals

/-- `addFocusGoal(name)`: INSERT (isActive takes its DEFAULT 0). -/
def addFocusGoal (name : String) (now : Nat) (db : Db) : Nat × Db :=
  (db.nextGoalId,
   { db with goals := db.goals ++ [{ id := db.nextGoalId, name := name, isActive := false, createdAt := now }],
             nextGoalId := db.nextGoalId + 1 })

/-- `setActiveFocusGoal(id | null)`: UPDATE focus_goals SET isActive = 0;
then, when an id is given, UPDATE ... SET isActive = 1 WHERE id = ?. -/
def setActiveFocusGoal (idOpt : Option Nat) (db : Db) : Db :=
  let cleared := db.goals.map (fun g => { g with isActive := false })
  match idOpt with
  | none => { db with goals := cleared }
  | some id =>
      { db with goals := cleared.map (fun g => if g.id = id then { g with isActive := true } else g) }

/-- `deleteFocusGoal(id)`. -/
def deleteFocusGoal (id : Nat) (db : Db) : Db :=
  { db with goals := db.goals.filter (fun g => !(g.id == id)) }

/-- `getTodayMemoryCount`: COUNT(*) WHERE date(createdAt) equals the date
prefix of `new Date().toISOString()` — both are UTC dates. -/
def getTodayMemoryCount (db : Db) (now : Nat) : Nat :=
  (db.memories.filter (fun m => utcDay m.createdAt == utcDay now)).length

/-- `getMorningMemories`: rows whose UTC date equals the UTC date of the
instant one day before `now`, ORDER BY createdAt DESC LIMIT 5. -/
def getMorningMemories (db : Db) (now : Nat) : List Memory :=
  (sortKeyDesc (fun m => (m.createdAt : Int))
    (db.memories.filter
      (fun m => utcDay m.createdAt == Int.fdiv ((now : Int) - 1440) 1440))).take 5

/-- `getFrequentlyViewedMemories`: WHERE viewCount > 0 ORDER BY viewCount
DESC LIMIT 5. -/
def getFrequentlyViewedMemories (db : Db) : List Memory :=
  (sortKeyDesc (fun m => (m.viewCount : Int))
    (db.memories.filter (fun m => 0 < m.viewCount))).take 5

/-! ### Save handler (TextInputScreen handleSave, pure core) -/

/-- The pure core of the text-capture `handleSave`: an empty trimmed input
is rejected before `addMemory` is ever called (the screen shows an alert
and returns); otherwise the trimmed text is saved as a `text` memory with
the optional captured location.  Returns the possibly-updated store and
the new row id, when one was inserted. -/
def handleSaveText (text : String) (now : Nat) (loc : Option (Int × Int))
    (db : Db) : Db × Option Nat :=
  if jsTrim text = "" then (db, none)
  else
    let r := addMemory
      { content := jsTrim text, contentType := ContentType.text, createdAt := now,
        latitude := loc.map Prod.fst, longitude := loc.map Prod.snd } db
    (r.2, some r.1)

/-! ### Focus filtering (FocusModeScreen filterMemories) -/

/-- Does one memory match the active goal name?  The goal is lowercased and
split on whitespace runs; the row matches when any chunk occurs as a
substring of the lowercased content or of the lowercased focusTags
(absent focusTags behave as the empty string). -/
def memoryMatchesGoal (goalName : String) (m : Memory) : Bool :=
  let keywords := splitWsJS (toLowerStr goalName)
  let content := toLowerStr m.content
  let tags := match m.focusTags with
    | some t => toLowerStr t
    | none => ""
  keywords.any (fun k => strIncludes content k || strIncludes tags k)

/-- `filterMemories(goalName)` over the already-loaded list of memories. -/
def filterMemories (goalName : String) (ms : List Memory) : List Memory :=
  ms.filter (memoryMatchesGoal goalName)

/-! ### Timeline grouping (TimelineScreen) -/

/-- A section of the timeline: the UTC day used as group key, its rendered
header, and the rows of that day. -/
structure GroupedMemories where
  date : Int
  formattedDate : String
  data : List Memory
deriving DecidableEq, Repr

/-- `formatDate`: the group key (a date string) is parsed by `new Date` as
a UTC-midnight instant; `toDateString`/`toLocaleDateString` render it in
local time, and it is compared against the current and previous local
calendar day. -/
def formatDate (day : Int) (now : Nat) (tz : Int) : String :=
  let dLocal := localCalendarDay (day * 1440) tz
  let todayLocal := localCalendarDay (now : Int) tz
  if dLocal = todayLocal then "Today"
  else if dLocal = todayLocal - 1 then "Yesterday"
  else renderWeekdayMonthDay dLocal

/-- `groupMemoriesByDate`: bucket rows by the date prefix of `createdAt`
(a UTC date), keeping encounter order inside a bucket, then emit the
buckets sorted by date descending with their rendered headers. -/
def groupMemoriesByDate (ms : List Memory) (now : Nat) (tz : Int) :
    List GroupedMemories :=
  let keys := sortKeyDesc id ((ms.map (fun m => utcDay m.createdAt)).dedup)
  keys.map (fun d =>
    { date := d, formattedDate := formatDate d now tz,
      data := ms.filter (fun m => utcDay m.createdAt == d) })

/-! ### Contextual suggestions (DiscoverScreen loadData, pure core) -/

/-- The suggestion list computed by the Discover screen: before local noon
the previous-day rows, from noon to 5pm the five most recent rows, after
5pm the frequently viewed rows; an empty selection falls back to the five
most recent rows. -/
def discoverSuggestions (db : Db) (now : Nat) (tz : Int) : List Memory :=
  let hour := localHour now tz
  let base :=
    if hour < 12 then getMorningMemories db now
    else if hour < 17 then getRecentMemories 5 db
    else getFrequentlyViewedMemories db
  if base.isEmpty then getRecentMemories 5 db else base

/-! ### The reducer-based file store (lib/memory-store.tsx) -/

structure ItemMetadata where
  durationSec : Option Nat := none
  uri : Option String := none
  thumbnailUri : Option String := none
deriving DecidableEq, Repr

/-- A `MemoryItem` of the reducer store. -/
structure MemoryItem where
  id : String
  type : ContentType
  title : String
  content : String
  createdAt : Nat
  location : Option String := none
  tags : Option (List String) := none
  metadata : Option ItemMetadata := none
deriving DecidableEq, Repr

/-- `filteredItems` of the home screen: a null or empty goal (both falsy)
keeps everything; otherwise an item is kept when its lowercased title
contains the whole lowercased goal, or some tag does. -/
def filteredItems (focusGoal : Option String) (items : List MemoryItem) :
    List MemoryItem :=
  match focusGoal with
  | none => items
  | some goal =>
    if goal = "" then items
    else
      let lowerGoal := toLowerStr goal
      items.filter (fun item =>
        strIncludes (toLowerStr item.title) lowerGoal ||
        (match item.tags with
         | some tags => tags.any (fun t => strIncludes (toLowerStr t) lowerGoal)
         | none => false))

/-! ### Specification-side definitions (for refutations and comparisons) -/

/-- Written from the claim wording: the number of rows whose `createdAt`
falls on the current local calendar date. -/
def specLocalTodayCount (db : Db) (now : Nat) (tz : Int) : Nat :=
  (db.memories.filter
    (fun m => localCalendarDay (m.createdAt : Int) tz == localCalendarDay (now : Int) tz)).length

/-- The correspondence between the two stores used for comparing their
derived views: a relational row viewed as a reducer-store item (title is
the free-text body, the tag string becomes a one-element tag list). -/
def itemOfMemory (m : Memory) : MemoryItem :=
  { id := toString m.id, type := m.contentType, title := m.content,
    content := m.content, createdAt := m.createdAt,
    location := m.locationName, tags := m.focusTags.map (fun t => [t]) }

/-- The single-active-goal invariant of the spec: at most one row of
`focus_goals` has `isActive` set. -/
def atMostOneActive (db : Db) : Prop :=
  db.goals.countP (fun g => g.isActive) ≤ 1

/-! ### Concrete fixtures used by the claim theorems -/

def mkMem (i : Nat) (t : Nat) (c : String) : Memory :=
  { id := i, content := c, contentType := ContentType.text, createdAt := t }

-- C1: an input with empty content and no media reference.
def c1Input : NewMemory :=
  { content := "", contentType := ContentType.text, createdAt := 0 }

def c1wInput : NewMemory :=
  { content := "note", contentType := ContentType.text, createdAt := 50 }

def c1wDb : Db := { memories := [mkMem 1 10 "existing"], nextMemoryId := 2 }

-- C2: a store with two goals, the first one active.
def c2Db : Db :=
  { goals := [{ id := 1, name := "Deep Work", isActive := true, createdAt := 100 },
              { id := 2, name := "Study", isActive := false, createdAt := 200 }],
    nextGoalId := 3 }

-- C3 fixture: day 19724 is 2024-01-02 (a Tuesday); current instant 10:00 UTC.
def c3Now : Nat := 19724 * 1440 + 600
def c3T2 : Memory := mkMem 4 (19724 * 1440 + 540) "today nine"
def c3T1 : Memory := mkMem 3 (19724 * 1440 + 480) "today eight"
def c3Y : Memory := mkMem 2 (19723 * 1440 + 600) "yesterday note"
def c3O : Memory := mkMem 1 (19722 * 1440 + 600) "older note"
def c3List : List Memory := [c3T2, c3T1, c3Y, c3O]

-- C3 refutation fixture at offset -300 (five hours west of UTC):
-- both instants fall on local day 0 but on UTC days 1 and 0.
def c3cr1 : Memory := mkMem 1 1500 "late evening local"
def c3cr2 : Memory := mkMem 2 720 "noon local"

-- C4 fixture: three rows, two on the previous day, one two days back.
def c4MorningNow : Nat := 19724 * 1440 + 540
def c4AfternoonNow : Nat := 19724 * 1440 + 840
def c4EveningNow : Nat := 19724 * 1440 + 1080
def c4Y10 : Memory := mkMem 2 (19723 * 1440 + 600) "yesterday ten"
def c4Y08 : Memory := mkMem 1 (19723 * 1440 + 480) "yesterday eight"
def c4O : Memory := mkMem 3 (19722 * 1440 + 300) "two days ago"
def c4Db : Db := { memories := [c4Y08, c4Y10, c4O], nextMemoryId := 4 }

-- C5 fixture.
def c5Travel : Memory :=
  { id := 1, content := "note", contentType := ContentType.text, createdAt := 0,
    focusTags := some "travel-plans" }
def c5Personal : Memory :=
  { id := 2, content := "personal", contentType := ContentType.text, createdAt := 0 }

-- C6 refutation fixture at offset +120: the row at 10:00 UTC of day 1 and
-- the current instant 23:30 UTC of day 1 share the UTC date but the
-- current local date is already day 2.
def c6Mem : Memory := mkMem 1 (1 * 1440 + 600) "m"
def c6Db : Db := { memories := [c6Mem], nextMemoryId := 2 }
def c6Now : Nat := 1 * 1440 + 1410

-- C6 end-to-end fixture: 2024-01-01T08:00:00Z.
def buyMilk : NewMemory :=
  { content := "Buy milk", contentType := ContentType.text,
    createdAt := 19723 * 1440 + 480 }

-- C7 fixture: one row with id 1; a non-empty update aimed at absent id 7.
def c7Db : Db := { memories := [mkMem 1 100 "hello"], nextMemoryId := 2 }
def c7Upd : MemoryUpdate := { content := some "changed" }
def c7wDb : Db := { memories := [mkMem 1 100 "hello"], nextMemoryId := 2 }
def c7wUpd : MemoryUpdate := { content := some "other" }

-- C9 fixture: the same logical record in both stores.
def c9Mem : Memory :=
  { id := 1, content := "work plans", contentType := ContentType.text, createdAt := 0 }
def c9wMem : Memory :=
  { id := 2, content := "deep work session", contentType := ContentType.text,
    createdAt := 5, focusTags := some "career" }

-- C10 fixture.
def c10Mem : Memory := mkMem 1 0 "anything at all"

/-! ### Lemmas about the stable descending insertion sort -/

theorem insKeyDesc_perm (key : α → Int) (x : α) (l : List α) :
    (insKeyDesc key x l).Perm (x :: l) := by
  induction l with
  | nil => simp [insKeyDesc]
  | cons y ys ih =>
    by_cases h : key y < key x
    · simp [insKeyDesc, h]
    · simp only [insKeyDesc, if_neg h]
      exact (List.Perm.cons y ih).trans (List.Perm.swap x y ys)

theorem sortKeyDesc_perm (key : α → Int) (l : List α) :
    (sortKeyDesc key l).Perm l := by
  induction l with
  | nil => simp [sortKeyDesc]
  | cons x xs ih =>
    exact (insKeyDesc_perm key x (sortKeyDesc key xs)).trans (List.Perm.cons x ih)

theorem pairwise_insKeyDesc {key : α → Int} {x : α} {l : List α}
    (h : l.Pairwise (fun a b => key b ≤ key a)) :
    (insKeyDesc key x l).Pairwise (fun a b => key b ≤ key a) := by
  induction l with
  | nil => simp [insKeyDesc]
  | cons y ys ih =>
    rcases List.pairwise_cons.mp h with ⟨hy, hys⟩
    by_cases hlt : key y < key x
    · simp only [insKeyDesc, if_pos hlt]
      refine List.pairwise_cons.mpr ⟨?_, h⟩
      intro z hz
      rcases List.mem_cons.mp hz with rfl | hz
      · exact le_of_lt hlt
      · exact le_trans (hy z hz) (le_of_lt hlt)
    · simp only [insKeyDesc, if_neg hlt]
      refine List.pairwise_cons.mpr ⟨?_, ih hys⟩
      intro z hz
      have hz2 := (insKeyDesc_perm key x ys).mem_iff.mp hz
      rcases List.mem_cons.mp hz2 with rfl | hz3
      · exact not_lt.mp hlt
      · exact hy z hz3

theorem sortKeyDesc_pairwise (key : α → Int) (l : List α) :
    (sortKeyDesc key l).Pairwise (fun a b => key b ≤ key a) := by
  induction l with
  | nil => simp [sortKeyDesc]
  | cons x xs ih => exact pairwise_insKeyDesc ih

theorem insKeyDesc_all_lt {key : α → Int} {x : α} {m : List α}
    (h : ∀ z ∈ m, key z < key x) : insKeyDesc key x m = x :: m := by
  cases m with
  | nil => rfl
  | cons y ys => simp [insKeyDesc, h y (by simp)]

theorem filter_insKeyDesc_neg {key : α → Int} {p : α → Bool} {x : α}
    (hx : p x = false) (l : List α) :
    (insKeyDesc key x l).filter p = l.filter p := by
  induction l with
  | nil => simp [insKeyDesc, hx]
  | cons y ys ih =>
    by_cases hlt : key y < key x
    · simp [insKeyDesc, if_pos hlt, List.filter_cons, hx]
    · simp [insKeyDesc, if_neg hlt, List.filter_cons, ih]

theorem filter_insKeyDesc_pos {key : α → Int} {p : α → Bool} {x : α}
    (hx : p x = true) {l : List α}
    (hl : l.Pairwise (fun a b => key b ≤ key a)) :
    (insKeyDesc key x l).filter p = insKeyDesc key x (l.filter p) := by
  induction l with
  | nil => simp [insKeyDesc, hx]
  | cons y ys ih =>
    rcases List.pairwise_cons.mp hl with ⟨hy, hys⟩
    by_cases hlt : key y < key x
    · have hall : ∀ z ∈ (y :: ys).filter p, key z < key x := by
        intro z hz
        have hz2 := List.mem_of_mem_filter hz
        rcases List.mem_cons.mp hz2 with rfl | hz3
        · exact hlt
        · exact lt_of_le_of_lt (hy z hz3) hlt
      rw [show insKeyDesc key x (y :: ys) = x :: y :: ys from by simp [insKeyDesc, hlt]]
      rw [insKeyDesc_all_lt hall]
      simp [List.filter_cons, hx]
    · simp only [insKeyDesc, if_neg hlt, List.filter_cons]
      by_cases hpy : p y = true
      · simp only [hpy, if_pos]
        rw [ih hys]
        simp [insKeyDesc, if_neg hlt, List.filter_cons, hpy]
      · have hpy2 : p y = false := by simpa using hpy
        simp [hpy2, ih hys]

theorem sortKeyDesc_filter (key : α → Int) (p : α → Bool) (l : List α) :
    (sortKeyDesc key l).filter p = sortKeyDesc key (l.filter p) := by
  induction l with
  | nil => rfl
  | cons x xs ih =>
    simp only [sortKeyDesc, List.filter_cons]
    by_cases hx : p x = true
    · rw [if_pos hx, filter_insKeyDesc_pos hx (sortKeyDesc_pairwise key xs), ih]
      rfl
    · have hx2 : p x = false := by simpa using hx
      rw [if_neg (by simp [hx2]), filter_insKeyDesc_neg hx2, ih]

/-! ### Lemmas about the string primitives -/

theorem containsSeq_nil (l : List Char) : containsSeq l [] = true := by
  cases l <;> rfl

theorem containsSeq_nil_left (n : Char) (rest : List Char) :
    containsSeq [] (n :: rest) = false := by
  rfl

theorem strIncludes_empty (hay : String) : strIncludes hay "" = true := by
  simp [strIncludes, containsSeq_nil]

theorem strIncludes_of_empty_hay {ned : String} (h : ned ≠ "") :
    strIncludes "" ned = false := by
  have : ned.data ≠ [] := by
    intro hd
    exact h (by cases ned; simp_all)
  cases hnd : ned.data with
  | nil => exact absurd hnd this
  | cons n rest => simp [strIncludes, hnd, containsSeq_nil_left]

theorem tokensWsAux_all_not_ws {l : List Char}
    (h : l.all (fun c => !c.isWhitespace) = true) :
    tokensWsAux false l = [l] := by
  induction l with
  | nil => rfl
  | cons c cs ih =>
    rw [List.all_cons, Bool.and_eq_true] at h
    obtain ⟨hc, hcs⟩ := h
    have hc2 : c.isWhitespace = false := by simpa using hc
    simp only [tokensWsAux, hc2]
    rw [ih hcs]
    simp

theorem splitWsJS_single {s : String}
    (h : s.data.all (fun c => !c.isWhitespace) = true) :
    splitWsJS s = [s] := by
  simp [splitWsJS, tokensWsAux_all_not_ws h]

theorem toLower_of_isWhitespace {c : Char} (h : c.isWhitespace = true) :
    Char.toLower c = c := by
  have h4 : c = ' ' ∨ c = '\t' ∨ c = '\r' ∨ c = '\n' := by
    simpa [Char.isWhitespace, or_assoc] using h
  rcases h4 with rfl | rfl | rfl | rfl <;> decide

theorem toLowerStr_of_all_ws {s : String}
    (h : s.data.all (fun c => c.isWhitespace) = true) :
    toLowerStr s = s := by
  have hmap : s.data.map Char.toLower = s.data := by
    conv_rhs => rw [← List.map_id s.data]
    apply List.map_congr_left
    intro c hc
    exact toLower_of_isWhitespace (by simpa using List.all_eq_true.mp h c hc)
  unfold toLowerStr
  rw [hmap]

theorem empty_mem_splitWsJS_of_all_ws {s : String}
    (h : s.data.all (fun c => c.isWhitespace) = true) :
    "" ∈ splitWsJS s := by
  cases hd : s.data with
  | nil =>
    have hs : s = "" := by cases s; simp_all
    subst hs
    simp [splitWsJS, tokensWsAux]
  | cons c cs =>
    have hc : c.isWhitespace = true := by
      have := List.all_eq_true.mp h c (by simp [hd])
      simpa using this
    have : splitWsJS s = "" :: (tokensWsAux true cs).map String.mk := by
      simp [splitWsJS, hd, tokensWsAux, hc]
    simp [this]

/-! ### Miscellaneous list lemmas -/

theorem countP_filter_le (p q : α → Bool) (l : List α) :
    (l.filter q).countP p ≤ l.countP p := by
  induction l with
  | nil => simp
  | cons a t ih =>
    rw [List.filter_cons]
    by_cases hq : q a
    · rw [if_pos hq, List.countP_cons, List.countP_cons]
      by_cases hp : p a
      · simp only [hp, if_pos]
        omega
      · have hp2 : p a = false := by simpa using hp
        simp only [hp2]
        omega
    · rw [if_neg hq, List.countP_cons]
      by_cases hp : p a
      · simp only [hp, if_pos]
        omega
      · have hp2 : p a = false := by simpa using hp
        simp only [hp2]
        omega

theorem filter_map_eq (f : α → β) (p : β → Bool) (l : List α) :
    (l.map f).filter p = (l.filter (fun a => p (f a))).map f := by
  induction l with
  | nil => rfl
  | cons a t ih =>
    simp only [List.map_cons, List.filter_cons]
    by_cases h : p (f a)
    · simp [h, ih]
    · simp [h, ih]

/-! ### Lemmas about goal ids -/

theorem countP_goal_id_eq {l : List FocusGoal} {gid : Nat}
    (hnd : (l.map FocusGoal.id).Nodup) (hm : gid ∈ l.map FocusGoal.id) :
    l.countP (fun g => g.id == gid) = 1 := by
  induction l with
  | nil => simp at hm
  | cons g t ih =>
    rw [List.map_cons, List.nodup_cons] at hnd
    obtain ⟨hgnot, hndt⟩ := hnd
    rw [List.countP_cons]
    by_cases he : g.id = gid
    · have hzero : t.countP (fun x => x.id == gid) = 0 := by
        rw [List.countP_eq_zero]
        intro x hx
        simp only [beq_iff_eq]
        intro hxg
        exact hgnot (he ▸ hxg ▸ List.mem_map_of_mem FocusGoal.id hx)
      simp [he, hzero]
    · have hmt : gid ∈ t.map FocusGoal.id := by
        rcases List.mem_cons.mp hm with h | h
        · exact absurd h.symm he
        · exact h
      simp [he, ih hndt hmt]

theorem filter_goal_id_eq {l : List FocusGoal} {gid : Nat}
    (hnd : (l.map FocusGoal.id).Nodup) (hm : gid ∈ l.map FocusGoal.id) :
    (l.filter (fun g => g.id == gid)).map FocusGoal.id = [gid] := by
  induction l with
  | nil => simp at hm
  | cons g t ih =>
    rw [List.map_cons, List.nodup_cons] at hnd
    obtain ⟨hgnot, hndt⟩ := hnd
    rw [List.filter_cons]
    by_cases he : g.id = gid
    · have hnil : t.filter (fun x => x.id == gid) = [] := by
        rw [List.filter_eq_nil_iff]
        intro x hx
        simp only [beq_iff_eq]
        intro hxg
        exact hgnot (he ▸ hxg ▸ List.mem_map_of_mem FocusGoal.id hx)
      simp [he, hnil]
    · have hmt : gid ∈ t.map FocusGoal.id := by
        rcases List.mem_cons.mp hm with h | h
        · exact absurd h.symm he
        · exact h
      simp [he, ih hndt hmt]

/-! ### Partition lemma for the timeline grouping -/

theorem join_filter_utcDay_perm (keys : List Int) (ms : List Memory)
    (hnd : keys.Nodup)
    (hcov : ∀ m ∈ ms, utcDay m.createdAt ∈ keys) :
    ((keys.map (fun d => ms.filter (fun m => utcDay m.createdAt == d))).flatten).Perm ms := by
  induction keys generalizing ms with
  | nil =>
    have hms : ms = [] := by
      cases ms with
      | nil => rfl
      | cons m t => exact absurd (hcov m (by simp)) (by simp)
    simp [hms]
  | cons d ks ih =>
    rw [List.map_cons, List.flatten_cons]
    rw [List.nodup_cons] at hnd
    obtain ⟨hd, hks⟩ := hnd
    have htail : ks.map (fun k => ms.filter (fun m => utcDay m.createdAt == k))
        = ks.map (fun k => (ms.filter (fun m => !(utcDay m.createdAt == d))).filter
            (fun m => utcDay m.createdAt == k)) := by
      apply List.map_congr_left
      intro k hk
      rw [List.filter_filter]
      apply List.filter_congr
      intro m hm
      by_cases hmk : utcDay m.createdAt = k
      · have hne : ¬(utcDay m.createdAt = d) := by
          intro hcontra
          have hdk : d = k := hcontra.symm.trans hmk
          exact hd (by rw [hdk]; exact hk)
        have hkd : ¬(k = d) := fun h => hne (hmk.trans h)
        simp [hmk, hkd]
      · simp [hmk]
    rw [htail]
    have hcov2 : ∀ m ∈ ms.filter (fun m => !(utcDay m.createdAt == d)),
        utcDay m.createdAt ∈ ks := by
      intro m hm
      rcases List.mem_filter.mp hm with ⟨hm1, hm2⟩
      rcases List.mem_cons.mp (hcov m hm1) with h | h
      · simp [h] at hm2
      · exact h
    have hper := ih (ms.filter (fun m => !(utcDay m.createdAt == d))) hks hcov2
    exact (List.Perm.append_left _ hper).trans (List.filter_append_perm _ ms)

/-! ### Claim theorems -/

/-- C1 counterexample: the claim states that on an input with empty
`content` and no media reference, `addMemory` fails with a ValidationError
and inserts no record.  The source `addMemory` performs no validation at
all (its embedding is a total function with no failure outcome): on that
very input it returns the fresh id 1 and the store afterwards holds one
row whose content is the empty string. -/
theorem c1_addMemory_counterexample :
    (addMemory c1Input emptyDb).1 = 1 ∧
    ((addMemory c1Input emptyDb).2).memories.map Memory.content = [""] := by
  decide

/-- C1 amended: `addMemory` never fails.  For every input, including one
with empty content and no media reference, it returns the AUTOINCREMENT id
(fresh with respect to every stored row), appends exactly one row carrying
the submitted fields with `viewCount = 0`, and changes nothing else.  The
empty-content guard lives only in the UI save handler, which does not call
`addMemory` when the trimmed text is empty. -/
theorem c1_addMemory_total (inp : NewMemory) (db : Db) (t : String)
    (now : Nat) (loc : Option (Int × Int))
    (hfresh : ∀ m ∈ db.memories, m.id < db.nextMemoryId)
    (ht : jsTrim t = "") :
    (addMemory inp db).1 = db.nextMemoryId ∧
    (addMemory inp db).1 ∉ db.memories.map Memory.id ∧
    ((addMemory inp db).2).memories = db.memories ++
      [{ id := db.nextMemoryId, content := inp.content, contentType := inp.contentType,
         createdAt := inp.createdAt, latitude := inp.latitude, longitude := inp.longitude,
         locationName := inp.locationName, audioUri := inp.audioUri,
         imageUri := inp.imageUri, linkUrl := inp.linkUrl, linkTitle := inp.linkTitle,
         linkPreview := inp.linkPreview, focusTags := inp.focusTags,
         viewCount := 0, lastViewedAt := none }] ∧
    handleSaveText t now loc db = (db, none) := by
  refine ⟨rfl, ?_, rfl, ?_⟩
  · intro hmem
    rcases List.mem_map.mp hmem with ⟨m, hm, hid⟩
    have hlt := hfresh m hm
    simp only [addMemory] at hid
    omega
  · simp [handleSaveText, ht]

/-- C1 amended, witness at a concrete store and a whitespace-only input. -/
theorem c1_addMemory_total_witness :
    (addMemory c1wInput c1wDb).1 = c1wDb.nextMemoryId ∧
    (addMemory c1wInput c1wDb).1 ∉ c1wDb.memories.map Memory.id ∧
    ((addMemory c1wInput c1wDb).2).memories = c1wDb.memories ++
      [{ id := c1wDb.nextMemoryId, content := c1wInput.content,
         contentType := c1wInput.contentType, createdAt := c1wInput.createdAt,
         latitude := c1wInput.latitude, longitude := c1wInput.longitude,
         locationName := c1wInput.locationName, audioUri := c1wInput.audioUri,
         imageUri := c1wInput.imageUri, linkUrl := c1wInput.linkUrl,
         linkTitle := c1wInput.linkTitle, linkPreview := c1wInput.linkPreview,
         focusTags := c1wInput.focusTags, viewCount := 0, lastViewedAt := none }] ∧
    handleSaveText "   " 0 none c1wDb = (c1wDb, none) :=
  c1_addMemory_total c1wInput c1wDb "   " 0 none (by decide) (by decide)

/-- C5: a record passes the focus filter exactly when some chunk of the
lowercased, whitespace-split goal name occurs as a substring of its
lowercased content or of its lowercased focusTags; matching is OR-combined
and substring-based.  Concretely, goal "work travel" keeps a record whose
focusTags is "travel-plans" and drops a record carrying only
"personal". -/
theorem c5_focus_filter_keyword_match (goal : String) (ms : List Memory) (m : Memory) :
    (m ∈ filterMemories goal ms ↔ m ∈ ms ∧ ∃ k ∈ splitWsJS (toLowerStr goal),
        (strIncludes (toLowerStr m.content) k = true ∨
         strIncludes (match m.focusTags with | some t => toLowerStr t | none => "") k = true)) ∧
    filterMemories "work travel" [c5Travel, c5Personal] = [c5Travel] ∧
    memoryMatchesGoal "work travel" c5Travel = true ∧
    memoryMatchesGoal "work travel" c5Personal = false := by
  refine ⟨?_, by decide, by decide, by decide⟩
  simp [filterMemories, List.mem_filter, memoryMatchesGoal, List.any_eq_true,
    Bool.or_eq_true]

/-- C6 counterexample: the claim states that `getTodayMemoryCount` counts
the rows whose `createdAt` falls on the current local calendar date.  At
offset +120 east of UTC, with one row created at 10:00 UTC on day 1 and
the query run at 23:30 UTC of the same UTC day, the function returns 1,
yet the row does not lie on the current local date (already day 2
locally), whose count is 0: the source compares UTC date prefixes, not
local dates. -/
theorem c6_todayCount_counterexample :
    getTodayMemoryCount c6Db c6Now = 1 ∧ specLocalTodayCount c6Db c6Now 120 = 0 := by
  decide

/-- C6 amended: `getTodayMemoryCount` counts the rows whose UTC date (the
ISO date prefix of `createdAt`) equals the UTC date of the current
instant.  The end-to-end example holds with UTC dates: after adding
"Buy milk" at 2024-01-01T08:00:00Z, the count is 1 during 2024-01-01 and
0 during 2024-01-02. -/
theorem c6_getTodayMemoryCount_utc (db : Db) (now : Nat) :
    getTodayMemoryCount db now =
      db.memories.countP (fun m => utcDay m.createdAt == utcDay now) ∧
    getTodayMemoryCount (addMemory buyMilk emptyDb).2 (19723 * 1440 + 720) = 1 ∧
    getTodayMemoryCount (addMemory buyMilk emptyDb).2 (19724 * 1440 + 300) = 0 := by
  refine ⟨?_, by decide, by decide⟩
  simp [getTodayMemoryCount, List.countP_eq_length_filter]

/-- C7 counterexample: the claim states that `updateMemory` fails with a
NotFoundError when no record with the id exists.  The source raises
nothing: its embedding is a total function, and on a store holding only
id 1, a non-empty update aimed at the absent id 7 returns normally with
the store unchanged. -/
theorem c7_update_absent_id_counterexample :
    updateMemory 7 c7Upd c7Db = c7Db := by
  decide

/-- C7 amended: `updateMemory(id, partialFields)` is a no-op when
`partialFields` carries no column, and it is also a silent no-op — not a
NotFoundError — when no record with the id exists: the UPDATE matches no
row and the state is unchanged. -/
theorem c7_updateMemory_noop (id : Nat) (u : MemoryUpdate) (db : Db) :
    (u.isEmpty = true → updateMemory id u db = db) ∧
    (id ∉ db.memories.map Memory.id → updateMemory id u db = db) := by
  constructor
  · intro he
    simp [updateMemory, he]
  · intro hid
    by_cases he : u.isEmpty
    · simp [updateMemory, he]
    · simp only [updateMemory, if_neg he]
      have hmap : db.memories.map (fun m => if m.id = id then applyUpdate u m else m)
          = db.memories := by
        conv_rhs => rw [← List.map_id db.memories]
        apply List.map_congr_left
        intro m hm
        have hne : m.id ≠ id := fun h => hid (h ▸ List.mem_map_of_mem Memory.id hm)
        simp [hne]
      rw [hmap]

/-- C7 amended, witness: the empty update at a present id and a non-empty
update at an absent id both leave a concrete store untouched. -/
theorem c7_updateMemory_noop_witness :
    updateMemory 1 {} c7wDb = c7wDb ∧ updateMemory 9 c7wUpd c7wDb = c7wDb :=
  ⟨(c7_updateMemory_noop 1 {} c7wDb).1 (by decide),
   (c7_updateMemory_noop 9 c7wUpd c7wDb).2 (by decide)⟩

/-- C8: `deleteMemory` is idempotent.  The embedding is a total function
(the source DELETE raises nothing, matching zero rows is fine), and a
second call with the same id — necessarily aimed at an id that is by then
absent — returns the state of the first call unchanged. -/
theorem c8_deleteMemory_idempotent (id : Nat) (db : Db) :
    deleteMemory id (deleteMemory id db) = deleteMemory id db := by
  simp [deleteMemory, List.filter_filter]

/-- C10: a goal name that is empty or all whitespace splits to a list of
chunks containing the empty string, the empty string is a substring of
everything, and hence the focus filter keeps every record. -/
theorem c10_blank_goal_keeps_all (goal : String) (ms : List Memory)
    (h : goal.data.all (fun c => c.isWhitespace) = true) :
    filterMemories goal ms = ms := by
  have hlow : toLowerStr goal = goal := toLowerStr_of_all_ws h
  have hmem : "" ∈ splitWsJS (toLowerStr goal) := by
    rw [hlow]
    exact empty_mem_splitWsJS_of_all_ws h
  apply List.filter_eq_self.mpr
  intro m _
  unfold memoryMatchesGoal
  apply List.any_eq_true.mpr
  exact ⟨"", hmem, by simp [strIncludes_empty]⟩

/-- C10 witness at the one-space goal name. -/
theorem c10_blank_goal_keeps_all_witness :
    filterMemories " " [c10Mem] = [c10Mem] :=
  c10_blank_goal_keeps_all " " [c10Mem] (by decide)

/-- C2: the single-active-goal invariant is preserved by every focus-goal
operation — `addFocusGoal` inserts an inactive goal, `deleteFocusGoal`
removes rows, `setActiveFocusGoal` first clears every `isActive` flag —
and on a store with distinct goal ids containing `gid`,
`setActiveFocusGoal gid` followed by `getFocusGoals` yields exactly one
active goal, the one with id `gid`. -/
theorem c2_single_active_goal (db : Db) (gid : Nat) (name : String) (now : Nat)
    (did : Nat)
    (hnodup : (db.goals.map FocusGoal.id).Nodup)
    (hmem : gid ∈ db.goals.map FocusGoal.id)
    (hone : atMostOneActive db) :
    atMostOneActive (addFocusGoal name now db).2 ∧
    atMostOneActive (deleteFocusGoal did db) ∧
    atMostOneActive (setActiveFocusGoal none db) ∧
    atMostOneActive (setActiveFocusGoal (some gid) db) ∧
    ((getFocusGoals (setActiveFocusGoal (some gid) db)).filter
        (fun g => g.isActive)).map FocusGoal.id = [gid] := by
  have hgoals : (setActiveFocusGoal (some gid) db).goals
      = db.goals.map (fun g => if g.id = gid then { g with isActive := true }
          else { g with isActive := false }) := by
    simp only [setActiveFocusGoal, List.map_map]
    apply List.map_congr_left
    intro g _
    by_cases h : g.id = gid
    · simp [Function.comp, h]
    · simp [Function.comp, h]
  refine ⟨?_, ?_, ?_, ?_, ?_⟩
  · simpa [atMostOneActive, addFocusGoal, List.countP_append, List.countP_cons]
      using hone
  · simp only [atMostOneActive, deleteFocusGoal]
    exact le_trans (countP_filter_le _ _ _) hone
  · simp only [atMostOneActive, setActiveFocusGoal, List.countP_map]
    have hz : db.goals.countP ((fun g : FocusGoal => g.isActive)
        ∘ (fun g => { g with isActive := false })) = 0 :=
      List.countP_eq_zero.mpr (fun g _ => by simp [Function.comp])
    omega
  · show (setActiveFocusGoal (some gid) db).goals.countP (fun g => g.isActive) ≤ 1
    rw [hgoals, List.countP_map]
    have hcong : db.goals.countP
        ((fun g : FocusGoal => g.isActive) ∘ (fun g => if g.id = gid
          then { g with isActive := true } else { g with isActive := false }))
        = db.goals.countP (fun g => g.id == gid) := by
      apply List.countP_congr
      intro g _
      by_cases h : g.id = gid
      · simp [Function.comp, h]
      · simp [Function.comp, h]
    rw [hcong, countP_goal_id_eq hnodup hmem]
  · have hfil : ((setActiveFocusGoal (some gid) db).goals.filter
        (fun g => g.isActive)).map FocusGoal.id = [gid] := by
      rw [hgoals, filter_map_eq, List.map_map]
      have hp : (fun a : FocusGoal => (if a.id = gid then { a with isActive := true }
          else ({ a with isActive := false } : FocusGoal)).isActive)
          = fun a => a.id == gid := by
        funext a
        by_cases h : a.id = gid
        · simp [h]
        · simp [h]
      have hid : (FocusGoal.id ∘ fun a : FocusGoal => if a.id = gid
          then { a with isActive := true } else { a with isActive := false })
          = FocusGoal.id := by
        funext a
        by_cases h : a.id = gid
        · simp [Function.comp, h]
        · simp [Function.comp, h]
      rw [hp, hid]
      exact filter_goal_id_eq hnodup hmem
    have hperm : ((getFocusGoals (setActiveFocusGoal (some gid) db)).filter
        (fun g => g.isActive)).map FocusGoal.id |>.Perm [gid] := by
      have hs := sortKeyDesc_perm (fun g : FocusGoal => (g.createdAt : Int))
        (setActiveFocusGoal (some gid) db).goals
      have := (hs.filter (fun g => g.isActive)).map FocusGoal.id
      rw [hfil] at this
      exact this
    exact List.perm_singleton.mp hperm

/-- C2 witness on a two-goal store, activating goal 2. -/
theorem c2_single_active_goal_witness :
    atMostOneActive (addFocusGoal "reading" 300 c2Db).2 ∧
    atMostOneActive (deleteFocusGoal 1 c2Db) ∧
    atMostOneActive (setActiveFocusGoal none c2Db) ∧
    atMostOneActive (setActiveFocusGoal (some 2) c2Db) ∧
    ((getFocusGoals (setActiveFocusGoal (some 2) c2Db)).filter
        (fun g => g.isActive)).map FocusGoal.id = [2] :=
  c2_single_active_goal c2Db 2 "reading" 300 1 (by decide) (by decide)
    (by decide : c2Db.goals.countP (fun g => g.isActive) ≤ 1)

/-- C3 counterexample: the claim states the timeline partitions records by
the LOCAL calendar date of `createdAt`.  At offset -300 (five hours west
of UTC), the two fixture records fall on the same local calendar day yet
the source groups them by the UTC date prefix of the ISO string and emits
two groups; a partition by local date would emit one. -/
theorem c3_grouping_counterexample :
    localCalendarDay (c3cr1.createdAt : Int) (-300)
      = localCalendarDay (c3cr2.createdAt : Int) (-300) ∧
    (groupMemoriesByDate [c3cr1, c3cr2] 2000 (-300)).length = 2 := by
  decide

/-- C3 amended: the timeline groups records by the UTC calendar date (the
ISO date prefix of `createdAt`), not the local date.  The groups are
ordered by date strictly descending, together they carry every record
exactly once, each group holds exactly the records of its date in input
order, the header comes from `formatDate` (which compares the group date,
parsed as a UTC-midnight instant and viewed in local time, against the
current and previous local day), and the number of groups equals the
number of distinct UTC dates — three records on three distinct dates give
exactly three groups, labeled Today / Yesterday / weekday-month-day in
the concrete fixture. -/
theorem c3_timeline_grouping (ms : List Memory) (now : Nat) (tz : Int) :
    ((groupMemoriesByDate ms now tz).map GroupedMemories.date).Pairwise
      (fun a b => b < a) ∧
    (((groupMemoriesByDate ms now tz).map GroupedMemories.data).flatten).Perm ms ∧
    (groupMemoriesByDate ms now tz).map GroupedMemories.data =
      (groupMemoriesByDate ms now tz).map
        (fun g => ms.filter (fun m => utcDay m.createdAt == g.date)) ∧
    (groupMemoriesByDate ms now tz).map GroupedMemories.formattedDate =
      ((groupMemoriesByDate ms now tz).map GroupedMemories.date).map
        (fun d => formatDate d now tz) ∧
    (groupMemoriesByDate ms now tz).length
      = ((ms.map (fun m => utcDay m.createdAt)).dedup).length ∧
    groupMemoriesByDate c3List c3Now 0 =
      [{ date := 19724, formattedDate := "Today", data := [c3T2, c3T1] },
       { date := 19723, formattedDate := "Yesterday", data := [c3Y] },
       { date := 19722, formattedDate := "Sunday, Dec 31", data := [c3O] }] := by
  refine ⟨?_, ?_, ?_, ?_, ?_, by decide⟩
  · have hmap : (groupMemoriesByDate ms now tz).map GroupedMemories.date
        = sortKeyDesc id ((ms.map (fun m => utcDay m.createdAt)).dedup) := by
      simp only [groupMemoriesByDate, List.map_map]
      exact List.map_id _
    rw [hmap]
    have hsorted := sortKeyDesc_pairwise (id : Int → Int)
      ((ms.map (fun m => utcDay m.createdAt)).dedup)
    have hnodup : (sortKeyDesc (id : Int → Int)
        ((ms.map (fun m => utcDay m.createdAt)).dedup)).Nodup :=
      ((sortKeyDesc_perm _ _).nodup_iff).mpr (List.nodup_dedup _)
    exact (List.Pairwise.and hsorted hnodup).imp
      (fun h => lt_of_le_of_ne h.1 (Ne.symm h.2))
  · have hmapdata : (groupMemoriesByDate ms now tz).map GroupedMemories.data
        = (sortKeyDesc id ((ms.map (fun m => utcDay m.createdAt)).dedup)).map
            (fun d => ms.filter (fun m => utcDay m.createdAt == d)) := by
      simp only [groupMemoriesByDate, List.map_map]
      rfl
    rw [hmapdata]
    apply join_filter_utcDay_perm
    · exact ((sortKeyDesc_perm _ _).nodup_iff).mpr (List.nodup_dedup _)
    · intro m hm
      have h1 : utcDay m.createdAt ∈ (ms.map (fun m => utcDay m.createdAt)).dedup :=
        List.mem_dedup.mpr (List.mem_map_of_mem _ hm)
      exact ((sortKeyDesc_perm _ _).mem_iff).mpr h1
  · simp only [groupMemoriesByDate, List.map_map]
    rfl
  · simp only [groupMemoriesByDate, List.map_map]
    rfl
  · simp only [groupMemoriesByDate, List.length_map]
    exact (sortKeyDesc_perm _ _).length_eq

/-- C4: the Discover suggestion selection.  Before local noon it returns
the rows dated on the previous day (UTC date of the instant one day
before now), most recent first, capped at 5, falling back to the 5 most
recent rows when that set is empty; from noon to 5pm the 5 most recent
rows; from 5pm on the rows with a positive view count ordered by view
count descending capped at 5, falling back to the 5 most recent rows
when empty. -/
theorem c4_contextual_suggestions (db : Db) (now : Nat) (tz : Int) :
    (localHour now tz < 12 →
      discoverSuggestions db now tz =
        (if ((getAllMemories db).filter
              (fun m => utcDay m.createdAt == Int.fdiv ((now : Int) - 1440) 1440)).take 5 = []
         then (getAllMemories db).take 5
         else ((getAllMemories db).filter
              (fun m => utcDay m.createdAt == Int.fdiv ((now : Int) - 1440) 1440)).take 5)) ∧
    (12 ≤ localHour now tz → localHour now tz < 17 →
      discoverSuggestions db now tz = (getAllMemories db).take 5) ∧
    (17 ≤ localHour now tz →
      discoverSuggestions db now tz =
        (if (sortKeyDesc (fun m => (m.viewCount : Int))
              (db.memories.filter (fun m => 0 < m.viewCount))).take 5 = []
         then (getAllMemories db).take 5
         else (sortKeyDesc (fun m => (m.viewCount : Int))
              (db.memories.filter (fun m => 0 < m.viewCount))).take 5)) := by
  have hmorning : getMorningMemories db now
      = ((getAllMemories db).filter
          (fun m => utcDay m.createdAt == Int.fdiv ((now : Int) - 1440) 1440)).take 5 := by
    simp only [getMorningMemories, getAllMemories]
    rw [sortKeyDesc_filter]
  refine ⟨?_, ?_, ?_⟩
  · intro h
    simp only [discoverSuggestions, if_pos h]
    rw [hmorning]
    exact if_congr List.isEmpty_iff rfl rfl
  · intro h1 h2
    simp only [discoverSuggestions, if_neg (not_lt.mpr h1), if_pos h2]
    rw [ite_self]
    rfl
  · intro h
    have h12 : ¬(localHour now tz < 12) := not_lt.mpr (le_trans (by norm_num) h)
    have h17 : ¬(localHour now tz < 17) := not_lt.mpr h
    simp only [discoverSuggestions, if_neg h12, if_neg h17]
    exact if_congr List.isEmpty_iff rfl rfl

/-- C4 witness: at local hour 9 with two rows dated on the previous day
and one dated two days back, the selection returns exactly the two
previous-day rows; at hours 14 and 18 (no viewed rows) it returns the
three rows most recent first. -/
theorem c4_contextual_suggestions_witness :
    discoverSuggestions c4Db c4MorningNow 0 = [c4Y10, c4Y08] ∧
    discoverSuggestions c4Db c4AfternoonNow 0 = [c4Y10, c4Y08, c4O] ∧
    discoverSuggestions c4Db c4EveningNow 0 = [c4Y10, c4Y08, c4O] := by
  refine ⟨?_, ?_, ?_⟩
  · rw [(c4_contextual_suggestions c4Db c4MorningNow 0).1 (by decide)]
    decide
  · rw [(c4_contextual_suggestions c4Db c4AfternoonNow 0).2.1 (by decide) (by decide)]
    decide
  · rw [(c4_contextual_suggestions c4Db c4EveningNow 0).2.2 (by decide)]
    decide

/-- C9 counterexample: the claim states the two store implementations
derive the same selections from the same logical records.  Take the
record with body "work plans" (no tags) in both stores and the active
goal "work travel": the relational-store filter splits the goal into
keywords and keeps the record (content contains "work"), while the
reducer-store filter matches the whole goal string against the title and
drops it. -/
theorem c9_stores_counterexample :
    filterMemories "work travel" [c9Mem] = [c9Mem] ∧
    filteredItems (some "work travel") [itemOfMemory c9Mem] = [] := by
  decide

/-- C9 amended: the two stores do not expose extensionally equal derived
views in general — the relational store splits the goal into whitespace
keywords and matches content or focusTags, the reducer store matches the
whole goal against title or tags, and the suggestion engines use
different rules.  They do agree on focus filtering whenever the
lowercased goal splits into a single whitespace-free chunk, under the
correspondence title=content, tags=[focusTags]. -/
theorem c9_filters_agree_on_single_keyword (goal : String) (ms : List Memory)
    (h1 : splitWsJS (toLowerStr goal) = [toLowerStr goal]) :
    filteredItems (some goal) (ms.map itemOfMemory)
      = (filterMemories goal ms).map itemOfMemory := by
  by_cases hg : goal = ""
  · subst hg
    have hall : filterMemories "" ms = ms := by
      apply List.filter_eq_self.mpr
      intro m _
      unfold memoryMatchesGoal
      apply List.any_eq_true.mpr
      refine ⟨"", ?_, by simp [strIncludes_empty]⟩
      simp [splitWsJS, toLowerStr, tokensWsAux]
    simp [filteredItems, hall]
  · have hlowne : toLowerStr goal ≠ "" := by
      intro hl
      apply hg
      have hmapnil : goal.data.map Char.toLower = [] := by
        have := congrArg String.data hl
        simpa [toLowerStr] using this
      have hdata : goal.data = [] := List.map_eq_nil_iff.mp hmapnil
      cases goal
      simp_all
    simp only [filteredItems, if_neg hg]
    rw [filter_map_eq]
    unfold filterMemories
    congr 1
    apply List.filter_congr
    intro m _
    unfold memoryMatchesGoal
    rw [h1]
    simp only [List.any_cons, List.any_nil, Bool.or_false]
    cases hft : m.focusTags with
    | none => simp [itemOfMemory, hft, strIncludes_of_empty_hay hlowne]
    | some t => simp [itemOfMemory, hft]

/-- C9 amended, witness at the single-keyword goal "work". -/
theorem c9_filters_agree_witness :
    filteredItems (some "work") ([c9wMem].map itemOfMemory)
      = (filterMemories "work" [c9wMem]).map itemOfMemory :=
  c9_filters_agree_on_single_keyword "work" [c9wMem] (by decide)
